import Mathlib

/-!
Verification of the token-level benchmark harness (`bench_token.cpp`).

Byte strings are modelled as `List Nat` whose entries are byte values.
The tri-state ordering result `sz_less_k / sz_equal_k / sz_greater_k`
is modelled by the inductive `sz_ordering`.
-/

/-- Tri-state comparison result, mirroring the `sz_less_k`, `sz_equal_k`,
`sz_greater_k` constants returned by the ordering entries. -/
inductive sz_ordering where
  | sz_less_k
  | sz_equal_k
  | sz_greater_k
deriving DecidableEq

open sz_ordering

/-- Sign of `memcmp(a, c, n)`: compares the first `n` bytes of `a` and `c`
position by position and returns the sign (`-1`, `0`, `1`) of the first
difference, `0` when the first `n` bytes agree.  The benchmark only ever
calls `memcmp` with `n` at most the length of both operands, and only the
sign of the result is inspected. -/
def memcmp_sign : List Nat → List Nat → Nat → Int
  | x :: xs, y :: ys, n + 1 =>
      if x < y then -1 else if y < x then 1 else memcmp_sign xs ys n
  | _, _, _ => 0

/-- The `std::string_view.compare` entry of `ordering_functions`:
`a.compare(b)` compares the common prefix bytewise (as unsigned bytes) and,
when that ties, compares the lengths; the entry then maps the sign of the
result to the tri-state. -/
def sv_compare_entry (a c : List Nat) : sz_ordering :=
  let r := memcmp_sign a c (min a.length c.length)
  let order : Int := if r = 0 then (a.length : Int) - (c.length : Int) else r
  if order = 0 then sz_equal_k else if order < 0 then sz_less_k else sz_greater_k

/-- The `memcmp` entry of `ordering_functions`, transcribed exactly from the
source: `order = memcmp(a, c, min(|a|, |c|))`; when `order != 0` it returns
the sign of `order` if the lengths are equal and otherwise orders by length;
when `order == 0` it returns `sz_equal_k` even if the lengths differ. -/
def memcmp_order_entry (a c : List Nat) : sz_ordering :=
  let order := memcmp_sign a c (min a.length c.length)
  if order ≠ 0 then
    (if a.length = c.length then (if order < 0 then sz_less_k else sz_greater_k)
     else (if a.length < c.length then sz_less_k else sz_greater_k))
  else sz_equal_k

/-- Lexicographic byte-wise comparison, written from the spec's words:
equal iff the byte sequences are identical, otherwise ordered by the first
differing byte, and a proper prefix orders before the longer string. -/
def lex_byte_compare : List Nat → List Nat → sz_ordering
  | [], [] => sz_equal_k
  | [], _ :: _ => sz_less_k
  | _ :: _, [] => sz_greater_k
  | x :: xs, y :: ys =>
      if x < y then sz_less_k else if y < x then sz_greater_k else lex_byte_compare xs ys

/-- The `std::string_view.==` entry of `equality_functions`: view equality,
i.e. equal lengths and identical bytes. -/
def sv_equal_entry (a c : List Nat) : Bool := a == c

/-- The `memcmp` entry of `equality_functions`:
`a.size() == b.size() && memcmp(a.data(), b.data(), a.size()) == 0`. -/
def memcmp_equal_entry (a c : List Nat) : Bool :=
  a.length == c.length && memcmp_sign a c a.length == 0

/-- The `std::accumulate` entry of `checksum_functions`: folds
`sum + (unsigned char)c` over the string with a `std::size_t` accumulator,
so each step is taken modulo `2 ^ 64` and each character contributes its
byte value (`% 256`). -/
def accumulate_checksum (s : List Nat) : Nat :=
  s.foldl (fun sum c => (sum + c % 256) % 2 ^ 64) 0

/-- The registry built by `checksum_functions`, reduced to the data the baseline
invariant is about: entry name and `is_baseline` flag, in construction order.
Entries guarded by `SZ_USE_HASWELL` / `SZ_USE_SKYLAKE` / `SZ_USE_ICE` /
`SZ_USE_NEON` are included exactly when the corresponding build flag is set.
The callables themselves are modelled separately (`accumulate_checksum`). -/
def checksum_functions (use_haswell use_skylake use_ice use_neon : Bool) :
    List (String × Bool) :=
  [("std::accumulate", false), ("sz_checksum_serial", true)]
    ++ (if use_haswell then [("sz_checksum_haswell", true)] else [])
    ++ (if use_skylake then [("sz_checksum_skylake", true)] else [])
    ++ (if use_ice then [("sz_checksum_ice", true)] else [])
    ++ (if use_neon then [("sz_checksum_neon", true)] else [])

/-- The registry built by `hashing_functions`: both entries are constructed
without the third (baseline) field, which therefore defaults to `false`. -/
def hashing_functions : List (String × Bool) :=
  [("sz_hash_serial", false), ("std::hash", false)]

/-- The registry built by `equality_functions` (names and `is_baseline` flags,
in construction order; hardware variants included per build flag). -/
def equality_functions (use_haswell use_skylake : Bool) : List (String × Bool) :=
  [("std::string_view.==", false), ("sz_equal_serial", true)]
    ++ (if use_haswell then [("sz_equal_haswell", true)] else [])
    ++ (if use_skylake then [("sz_equal_skylake", true)] else [])
    ++ [("memcmp", false)]

/-- The registry built by `ordering_functions` (names and `is_baseline` flags,
in construction order; hardware variants included per build flag). -/
def ordering_functions (use_haswell use_skylake : Bool) : List (String × Bool) :=
  [("std::string_view.compare", false), ("sz_order_serial", true)]
    ++ (if use_haswell then [("sz_order_haswell", true)] else [])
    ++ (if use_skylake then [("sz_order_skylake", true)] else [])
    ++ [("memcmp", false)]

/-- Number of entries of a registry whose `is_baseline` flag is set. -/
def count_baselines (registry : List (String × Bool)) : Nat :=
  (registry.filter (fun e => e.2)).length

/-- The divisor used by the `std::rand % uint8` generator:
`static_cast<uint8_t>(alphabet.size())`, i.e. the size truncated to 8 bits. -/
def max_alphabet_size (n : Nat) : Nat := n % 256

/-- The scratch-buffer maintenance in `random_generation_functions`:
`if (buffer.size() < token_length) buffer.resize(token_length)`. -/
def resize_buffer (buffer : List Nat) (tl : Nat) : List Nat :=
  if buffer.length < tl then buffer ++ List.replicate (tl - buffer.length) 0 else buffer

/-- The generation loop: positions `start, start+1, ...` of the buffer below
`tl` are overwritten with `pick i` (the byte chosen for position `i`);
positions at `tl` and beyond are left as they are.  `none` models an
execution with undefined behaviour (division by zero or an out-of-bounds
alphabet access in `pick`). -/
def fill_bytes (pick : Nat → Option Nat) (tl : Nat) : Nat → List Nat → Option (List Nat)
  | _, [] => some []
  | i, b :: rest =>
    if i < tl then
      match pick i, fill_bytes pick tl (i + 1) rest with
      | some v, some rest2 => some (v :: rest2)
      | _, _ => none
    else some (b :: rest)

/-- The `std::rand % uint8` callable of `random_generation_functions`:
`buffer[i] = alphabet[std::rand() % max_alphabet_size]` for
`i < token_length`, returning `token_length` as the bytes written.  The
`std::rand()` stream is abstracted by `rand`.  The result is `none` when the
loop would divide by zero (`max_alphabet_size = 0`) or read the alphabet out
of bounds. -/
def rand_mod_uint8_entry (rand : Nat → Nat) (tl : Nat) (alphabet buffer : List Nat) :
    Option (List Nat × Nat) :=
  match fill_bytes
      (fun i => if max_alphabet_size alphabet.length = 0 then none
                else alphabet.get? (rand i % max_alphabet_size alphabet.length))
      tl 0 (resize_buffer buffer tl) with
  | some buf => some (buf, tl)
  | none => none

/-- Modelled from the spec: `randomize_string` is declared in `test.hpp`,
which is not under `src/`.  Per the collaborator contract it fills the
destination with exactly `length` bytes drawn from the alphabet; the random
index choice is abstracted by the `rand` stream. -/
def randomize_string (rand : Nat → Nat) (tl : Nat) (alphabet buffer : List Nat) :
    Option (List Nat) :=
  fill_bytes (fun i => alphabet.get? (rand i % alphabet.length)) tl 0
    (resize_buffer buffer tl)

/-- The `std::uniform_int<uint8>` callable of `random_generation_functions`:
calls `randomize_string` on the first `token_length` bytes of the scratch
buffer and returns `token_length`. -/
def uniform_int_entry (rand : Nat → Nat) (tl : Nat) (alphabet buffer : List Nat) :
    Option (List Nat × Nat) :=
  (randomize_string rand tl alphabet buffer).map (fun b => (b, tl))

/-- Modelled from the spec: `sz::randomize` is an external random-fill
primitive (not under `src/`).  Per the collaborator contract it fills the
span with exactly `length` bytes drawn from the alphabet; the generator is
abstracted by the `rand` stream. -/
def sz_randomize (rand : Nat → Nat) (tl : Nat) (alphabet buffer : List Nat) :
    Option (List Nat) :=
  fill_bytes (fun i => alphabet.get? (rand i % alphabet.length)) tl 0
    (resize_buffer buffer tl)

/-- The `sz::randomize` callable of `random_generation_functions`: randomizes
the `token_length`-byte span of the scratch buffer and returns
`token_length`. -/
def sz_randomize_entry (rand : Nat → Nat) (tl : Nat) (alphabet buffer : List Nat) :
    Option (List Nat × Nat) :=
  (sz_randomize rand tl alphabet buffer).map (fun b => (b, tl))

/-- The operation categories run by `bench`, in source order: the four
registry categories, then the size/dereference micro-check
(`bench_dereferencing`) once for `std::string` and once for `sz::string`. -/
inductive category where
  | checksum
  | hashing
  | equality
  | ordering
  | deref_std_string
  | deref_sz_string
deriving DecidableEq

/-- Per-category activity reported by a benchmark runner: how many tracked
invocations happened, total bytes processed, and baseline mismatches. -/
structure runner_result where
  invocations : Nat
  bytes_processed : Nat
  mismatch_count : Nat
deriving DecidableEq

/-- The body of `bench`: on an empty corpus it returns before calling any
runner; otherwise it runs the six categories sequentially in source order.
The runners themselves live in `bench.hpp` (not under `src/`), so their
per-category activity is abstracted by the `runner` argument. -/
def bench (runner : category → List (List Nat) → runner_result)
    (strings : List (List Nat)) : List (category × runner_result) :=
  if strings.length = 0 then []
  else
    [category.checksum, category.hashing, category.equality, category.ordering,
     category.deref_std_string, category.deref_sz_string].map
      (fun c => (c, runner c strings))

/-- Total tracked invocations of a `bench` report. -/
def total_invocations (runs : List (category × runner_result)) : Nat :=
  (runs.map (fun r => r.2.invocations)).sum

/-- Total bytes processed of a `bench` report. -/
def total_bytes (runs : List (category × runner_result)) : Nat :=
  (runs.map (fun r => r.2.bytes_processed)).sum

/-- Total baseline mismatches of a `bench` report. -/
def total_mismatches (runs : List (category × runner_result)) : Nat :=
  (runs.map (fun r => r.2.mismatch_count)).sum

/-- The corpora driven by `bench_on_input_data`, identified by their label. -/
inductive corpus_label where
  | tokens
  | lines
  | whole_text
  | tokens_of_length (n : Nat)
deriving DecidableEq

/-- The dataset produced by the external `prepare_benchmark_environment`
collaborator: token views, line views, and the whole text. -/
structure dataset_t where
  tokens : List (List Nat)
  lines : List (List Nat)
  text : List Nat

/-- Modelled from the spec: `filter_by_length` lives in `bench.hpp`, which is
not under `src/`.  Per spec §4.2 it returns, preserving relative order,
exactly the elements whose length equals `L`. -/
def filter_by_length (corpus : List (List Nat)) (L : Nat) : List (List Nat) :=
  corpus.filter (fun s => s.length == L)

/-- The fixed token lengths iterated by `bench_on_input_data`. -/
def token_lengths : List Nat := [1, 2, 3, 4, 5, 6, 7, 8, 16, 32]

/-- The body of `bench_on_input_data`: benchmarks the token corpus, the line
corpus, the whole text as a one-element corpus, and then the tokens filtered
to each length of `token_lengths`, in that order. -/
def bench_on_input_data (runner : category → List (List Nat) → runner_result)
    (d : dataset_t) : List (corpus_label × List (category × runner_result)) :=
  [(corpus_label.tokens, bench runner d.tokens),
   (corpus_label.lines, bench runner d.lines),
   (corpus_label.whole_text, bench runner [d.text])]
    ++ token_lengths.map
        (fun L => (corpus_label.tokens_of_length L, bench runner (filter_by_length d.tokens L)))

/-- The body of `bench_on_synthetic_data` is empty: no corpus is generated
and no benchmark is run. -/
def bench_on_synthetic_data : List (corpus_label × List (category × runner_result)) := []

/-- Which branch `main` takes. -/
inductive run_mode where
  | synthetic
  | input_data
deriving DecidableEq

/-- Outcome of a `main` invocation: the mode chosen, the benchmark runs
performed, and the process exit code. -/
structure main_result where
  mode : run_mode
  runs : List (corpus_label × List (category × runner_result))
  exit_code : Nat

/-- The body of `main` (named `main_entry` here because Lean reserves `main`
for an executable entry point): with fewer than two `argv` entries it runs
`bench_on_synthetic_data`, otherwise `bench_on_input_data`; in both cases it
returns 0. -/
def main_entry (argc : Nat) (runner : category → List (List Nat) → runner_result)
    (d : dataset_t) : main_result :=
  if argc < 2 then
    { mode := run_mode.synthetic, runs := bench_on_synthetic_data, exit_code := 0 }
  else
    { mode := run_mode.input_data, runs := bench_on_input_data runner d, exit_code := 0 }

/-- A runner that reports no activity, used to instantiate witnesses. -/
def trivial_runner : category → List (List Nat) → runner_result :=
  fun _ _ => ⟨0, 0, 0⟩

/-- An empty dataset, used to instantiate witnesses. -/
def empty_dataset : dataset_t := ⟨[], [], []⟩

lemma memcmp_sign_nil_left (c : List Nat) (n : Nat) : memcmp_sign [] c n = 0 := by
  cases c <;> cases n <;> rfl

lemma memcmp_sign_nil_right (a : List Nat) (n : Nat) : memcmp_sign a [] n = 0 := by
  cases a <;> cases n <;> rfl

lemma memcmp_sign_self (s : List Nat) : ∀ n, memcmp_sign s s n = 0 := by
  induction s with
  | nil => intro n; cases n <;> rfl
  | cons x xs ih =>
    intro n
    cases n with
    | zero => rfl
    | succ n => simp [memcmp_sign, lt_self_iff_false, ih]

lemma memcmp_sign_swap (a : List Nat) :
    ∀ (c : List Nat) (n : Nat), memcmp_sign c a n = -memcmp_sign a c n := by
  induction a with
  | nil => intro c n; rw [memcmp_sign_nil_left, memcmp_sign_nil_right]; rfl
  | cons x xs ih =>
    intro c n
    cases c with
    | nil => rw [memcmp_sign_nil_left, memcmp_sign_nil_right]; rfl
    | cons y ys =>
      cases n with
      | zero => rfl
      | succ n =>
        by_cases h1 : x < y
        · have h2 : ¬ y < x := Nat.lt_asymm h1
          simp [memcmp_sign, h1, h2]
        · by_cases h2 : y < x
          · simp [memcmp_sign, h1, h2]
          · simp [memcmp_sign, h1, h2, ih]

lemma sv_compare_eq_lex : ∀ a c : List Nat, sv_compare_entry a c = lex_byte_compare a c := by
  intro a
  induction a with
  | nil =>
    intro c
    cases c with
    | nil => rfl
    | cons y ys =>
      simp only [sv_compare_entry, lex_byte_compare, List.length_nil, List.length_cons,
        Nat.zero_min, memcmp_sign_nil_left]
      split_ifs <;> first | rfl | (exfalso; omega)
  | cons x xs ih =>
    intro c
    cases c with
    | nil =>
      simp only [sv_compare_entry, lex_byte_compare, List.length_nil, List.length_cons,
        Nat.min_zero, memcmp_sign_nil_right]
      split_ifs <;> first | rfl | (exfalso; omega)
    | cons y ys =>
      simp only [sv_compare_entry, lex_byte_compare, List.length_cons, Nat.succ_min_succ,
        memcmp_sign]
      by_cases h1 : x < y
      · simp only [if_pos h1]
        norm_num
      · by_cases h2 : y < x
        · simp only [if_neg h1, if_pos h2]
          norm_num
        · simp only [if_neg h1, if_neg h2]
          have hcast : ((xs.length + 1 : Nat) : Int) - ((ys.length + 1 : Nat) : Int)
              = ((xs.length : Nat) : Int) - ((ys.length : Nat) : Int) := by push_cast; ring
          rw [hcast]
          exact ih ys

lemma lex_self (s : List Nat) : lex_byte_compare s s = sz_equal_k := by
  induction s with
  | nil => rfl
  | cons x xs ih => simp [lex_byte_compare, lt_self_iff_false, ih]

lemma lex_antisym : ∀ a c : List Nat,
    lex_byte_compare a c = sz_less_k → lex_byte_compare c a = sz_greater_k := by
  intro a
  induction a with
  | nil =>
    intro c h
    cases c with
    | nil => simp [lex_byte_compare] at h
    | cons y ys => rfl
  | cons x xs ih =>
    intro c h
    cases c with
    | nil => simp [lex_byte_compare] at h
    | cons y ys =>
      by_cases h1 : x < y
      · have h2 : ¬ y < x := Nat.lt_asymm h1
        simp [lex_byte_compare, h1, h2]
      · by_cases h2 : y < x
        · simp [lex_byte_compare, h1, h2] at h
        · simp only [lex_byte_compare, if_neg h1, if_neg h2] at h ⊢
          exact ih ys h

lemma memcmp_order_self (s : List Nat) : memcmp_order_entry s s = sz_equal_k := by
  simp [memcmp_order_entry, memcmp_sign_self]

lemma memcmp_order_antisym (a c : List Nat)
    (h : memcmp_order_entry a c = sz_less_k) : memcmp_order_entry c a = sz_greater_k := by
  simp only [memcmp_order_entry] at h ⊢
  rw [memcmp_sign_swap a, min_comm c.length a.length]
  split_ifs at h ⊢ <;>
    first
      | rfl
      | (exact absurd h (by decide))
      | (exfalso; omega)

lemma sv_compare_self (s : List Nat) : sv_compare_entry s s = sz_equal_k := by
  rw [sv_compare_eq_lex]; exact lex_self s

lemma sv_compare_antisym (a c : List Nat)
    (h : sv_compare_entry a c = sz_less_k) : sv_compare_entry c a = sz_greater_k := by
  rw [sv_compare_eq_lex] at h ⊢
  exact lex_antisym a c h

lemma memcmp_sign_full_eq : ∀ a c : List Nat, a.length = c.length →
    (memcmp_sign a c a.length = 0 ↔ a = c) := by
  intro a
  induction a with
  | nil =>
    intro c h
    cases c with
    | nil => simp [memcmp_sign_nil_left]
    | cons y ys => simp at h
  | cons x xs ih =>
    intro c h
    cases c with
    | nil => simp at h
    | cons y ys =>
      simp only [List.length_cons] at h
      by_cases h1 : x < y
      · have hne : x ≠ y := Nat.ne_of_lt h1
        simp [memcmp_sign, h1, hne]
      · by_cases h2 : y < x
        · have hne : x ≠ y := (Nat.ne_of_lt h2).symm
          simp [memcmp_sign, h1, h2, hne]
        · have hxy : x = y := Nat.le_antisymm (Nat.le_of_not_lt h2) (Nat.le_of_not_lt h1)
          have hlen : xs.length = ys.length := by omega
          simp [memcmp_sign, h1, h2, hxy, ih ys hlen]

lemma accumulate_aux : ∀ (s : List Nat) (acc : Nat), (∀ b ∈ s, b < 256) →
    acc + s.sum < 2 ^ 64 →
    s.foldl (fun sum c => (sum + c % 256) % 2 ^ 64) acc = acc + s.sum := by
  intro s
  induction s with
  | nil => intro acc _ _; simp
  | cons b t ih =>
    intro acc hb hlt
    have hb0 : b < 256 := hb b (List.mem_cons_self b t)
    have hmod : b % 256 = b := Nat.mod_eq_of_lt hb0
    simp only [List.foldl_cons, hmod]
    have hsum : (acc + b) + t.sum < 2 ^ 64 := by
      simp only [List.sum_cons] at hlt; omega
    have hacc : (acc + b) % 2 ^ 64 = acc + b := Nat.mod_eq_of_lt (by omega)
    rw [hacc, ih (acc + b) (fun x hx => hb x (List.mem_cons_of_mem _ hx)) hsum]
    simp only [List.sum_cons]
    omega


lemma fill_bytes_spec (pick : Nat → Option Nat) (tl : Nat)
    (hp : ∀ i, i < tl → (pick i).isSome) :
    ∀ (buf : List Nat) (start : Nat),
      ∃ b, fill_bytes pick tl start buf = some b ∧ b.length = buf.length ∧
        ∀ j, j < buf.length →
          b.get? j = if start + j < tl then pick (start + j) else buf.get? j := by
  intro buf
  induction buf with
  | nil =>
    intro start
    exact ⟨[], rfl, rfl, fun j hj => absurd hj (by simp)⟩
  | cons x rest ih =>
    intro start
    by_cases hi : start < tl
    · obtain ⟨v, hv⟩ := Option.isSome_iff_exists.mp (hp start hi)
      obtain ⟨b2, hb2, hlen, hget⟩ := ih (start + 1)
      refine ⟨v :: b2, ?_, by simp [hlen], ?_⟩
      · simp only [fill_bytes, if_pos hi, hv, hb2]
      · intro j hj
        cases j with
        | zero =>
          simp only [List.get?_cons_zero, Nat.add_zero, if_pos hi, hv]
        | succ j =>
          have hj2 : j < rest.length := by
            simp only [List.length_cons] at hj; omega
          have harith : start + 1 + j = start + (j + 1) := by omega
          rw [List.get?_cons_succ, List.get?_cons_succ, hget j hj2, harith]
    · refine ⟨x :: rest, ?_, rfl, ?_⟩
      · simp only [fill_bytes, if_neg hi]
      · intro j hj
        have hnlt : ¬ (start + j < tl) := by omega
        rw [if_neg hnlt]

lemma resize_buffer_length (buffer : List Nat) (tl : Nat) :
    tl ≤ (resize_buffer buffer tl).length := by
  unfold resize_buffer
  split
  · simp only [List.length_append, List.length_replicate]; omega
  · omega

lemma resize_buffer_self_le (buffer : List Nat) (tl : Nat) :
    buffer.length ≤ (resize_buffer buffer tl).length := by
  unfold resize_buffer
  split
  · simp only [List.length_append, List.length_replicate]; omega
  · omega

lemma resize_buffer_get_ge (buffer : List Nat) (tl i : Nat) (h : tl ≤ i) :
    (resize_buffer buffer tl).get? i = buffer.get? i := by
  unfold resize_buffer
  split
  · next hlt =>
      have h1 : (buffer ++ List.replicate (tl - buffer.length) 0).get? i = none :=
        List.get?_eq_none.mpr (by simp only [List.length_append, List.length_replicate]; omega)
      have h2 : buffer.get? i = none := List.get?_eq_none.mpr (by omega)
      rw [h1, h2]
  · rfl

lemma gen_entry_spec (pick : Nat → Option Nat) (alphabet : List Nat)
    (hp : ∀ i, ∃ v, pick i = some v ∧ v ∈ alphabet) (tl : Nat) (buffer : List Nat) :
    ∃ b, fill_bytes pick tl 0 (resize_buffer buffer tl) = some b ∧
      (∀ i, tl ≤ i → b.get? i = buffer.get? i) ∧
      (∀ i, i < tl → ∃ v, b.get? i = some v ∧ v ∈ alphabet) := by
  have hp2 : ∀ i, i < tl → (pick i).isSome := by
    intro i _
    obtain ⟨v, hv, _⟩ := hp i
    simp [hv]
  obtain ⟨b, hb, hlen, hget⟩ := fill_bytes_spec pick tl hp2 (resize_buffer buffer tl) 0
  refine ⟨b, hb, ?_, ?_⟩
  · intro i hi
    by_cases hlt : i < (resize_buffer buffer tl).length
    · have hg := hget i hlt
      rw [Nat.zero_add] at hg
      rw [hg, if_neg (by omega), resize_buffer_get_ge buffer tl i hi]
    · have h1 : b.get? i = none := List.get?_eq_none.mpr (by omega)
      have h2 : buffer.get? i = none := List.get?_eq_none.mpr (by
        have := resize_buffer_self_le buffer tl
        omega)
      rw [h1, h2]
  · intro i hi
    have hlt : i < (resize_buffer buffer tl).length :=
      Nat.lt_of_lt_of_le hi (resize_buffer_length buffer tl)
    have hg := hget i hlt
    rw [Nat.zero_add] at hg
    rw [hg, if_pos hi]
    exact hp i

lemma rand_pick_spec (rand : Nat → Nat) (alphabet : List Nat)
    (halpha : alphabet.length % 256 ≠ 0) :
    ∀ i, ∃ v, (if max_alphabet_size alphabet.length = 0 then none
        else alphabet.get? (rand i % max_alphabet_size alphabet.length)) = some v ∧
      v ∈ alphabet := by
  intro i
  have hm : max_alphabet_size alphabet.length ≠ 0 := halpha
  have hidx : rand i % max_alphabet_size alphabet.length < alphabet.length := by
    have ha : rand i % max_alphabet_size alphabet.length < max_alphabet_size alphabet.length :=
      Nat.mod_lt _ (Nat.pos_of_ne_zero hm)
    have hb : max_alphabet_size alphabet.length ≤ alphabet.length := Nat.mod_le _ _
    omega
  rw [if_neg hm]
  exact ⟨alphabet.get ⟨_, hidx⟩, List.get?_eq_get hidx, List.get_mem _ _ _⟩

lemma alphabet_pick_spec (rand : Nat → Nat) (alphabet : List Nat)
    (h0 : alphabet.length ≠ 0) :
    ∀ i, ∃ v, alphabet.get? (rand i % alphabet.length) = some v ∧ v ∈ alphabet := by
  intro i
  have hidx : rand i % alphabet.length < alphabet.length :=
    Nat.mod_lt _ (Nat.pos_of_ne_zero h0)
  exact ⟨alphabet.get ⟨_, hidx⟩, List.get?_eq_get hidx, List.get_mem _ _ _⟩

lemma rand_mod_uint8_entry_spec (rand : Nat → Nat) (tl : Nat) (alphabet buffer : List Nat)
    (halpha : alphabet.length % 256 ≠ 0) :
    ∃ b, rand_mod_uint8_entry rand tl alphabet buffer = some (b, tl) ∧
      (∀ i, tl ≤ i → b.get? i = buffer.get? i) ∧
      (∀ i, i < tl → ∃ v, b.get? i = some v ∧ v ∈ alphabet) := by
  obtain ⟨b, hb, h1, h2⟩ := gen_entry_spec _ alphabet (rand_pick_spec rand alphabet halpha) tl buffer
  refine ⟨b, ?_, h1, h2⟩
  unfold rand_mod_uint8_entry
  rw [hb]

lemma randomize_fill_spec (rand : Nat → Nat) (tl : Nat) (alphabet buffer : List Nat)
    (h0 : alphabet.length ≠ 0) :
    ∃ b, fill_bytes (fun i => alphabet.get? (rand i % alphabet.length)) tl 0
        (resize_buffer buffer tl) = some b ∧
      (∀ i, tl ≤ i → b.get? i = buffer.get? i) ∧
      (∀ i, i < tl → ∃ v, b.get? i = some v ∧ v ∈ alphabet) :=
  gen_entry_spec _ alphabet (alphabet_pick_spec rand alphabet h0) tl buffer

/-- Claim C1: the `std::string_view.compare` ordering entry agrees with
lexicographic byte-wise comparison on every pair, but the `memcmp` ordering
entry does not: on the proper-prefix pair ("a", "ab") it returns
`sz_equal_k` where lexicographic comparison (and the compare entry) says
less, and on ("b", "aa") it orders by length and returns `sz_less_k` where
the first differing byte says greater. -/
theorem ordering_entries_vs_lexicographic :
    (∀ a c : List Nat, sv_compare_entry a c = lex_byte_compare a c) ∧
    memcmp_order_entry [97] [97, 98] = sz_equal_k ∧
    sv_compare_entry [97] [97, 98] = sz_less_k ∧
    lex_byte_compare [97] [97, 98] = sz_less_k ∧
    memcmp_order_entry [98] [97, 97] = sz_less_k ∧
    lex_byte_compare [98] [97, 97] = sz_greater_k :=
  ⟨sv_compare_eq_lex, by decide, by decide, by decide, by decide, by decide⟩

/-- Claim C2 counterexample: the registry built by `hashing_functions` marks
no entry as baseline, so it is not the case that every per-category registry
has exactly one baseline entry. -/
theorem hashing_functions_no_baseline :
    count_baselines hashing_functions = 0 ∧ count_baselines hashing_functions ≠ 1 :=
  ⟨rfl, by decide⟩

/-- Claim C2 (amended): the registries built by `checksum_functions`,
`equality_functions` and `ordering_functions` mark the serial kernel and
every conditionally compiled hardware variant as baseline — exactly one
entry when no hardware variant is enabled — while `hashing_functions` marks
none. -/
theorem registry_baseline_counts :
    count_baselines (checksum_functions false false false false) = 1 ∧
    count_baselines (equality_functions false false) = 1 ∧
    count_baselines (ordering_functions false false) = 1 ∧
    count_baselines hashing_functions = 0 ∧
    (∀ h s i n : Bool, count_baselines (checksum_functions h s i n)
        = 1 + (cond h 1 0) + (cond s 1 0) + (cond i 1 0) + (cond n 1 0)) ∧
    (∀ h s : Bool, count_baselines (equality_functions h s)
        = 1 + (cond h 1 0) + (cond s 1 0)) ∧
    (∀ h s : Bool, count_baselines (ordering_functions h s)
        = 1 + (cond h 1 0) + (cond s 1 0)) := by
  refine ⟨rfl, rfl, rfl, rfl, ?_, ?_, ?_⟩
  · intro h s i n
    cases h <;> cases s <;> cases i <;> cases n <;> rfl
  · intro h s
    cases h <;> cases s <;> rfl
  · intro h s
    cases h <;> cases s <;> rfl

/-- Claim C3: the `memcmp` equality entry returns the same boolean as the
`std::string_view.==` entry on every pair, and both entries return `true` on
every self-pair. -/
theorem equality_entries_agree :
    (∀ a c : List Nat, memcmp_equal_entry a c = sv_equal_entry a c) ∧
    (∀ s : List Nat, sv_equal_entry s s = true ∧ memcmp_equal_entry s s = true) := by
  constructor
  · intro a c
    have h1 : memcmp_equal_entry a c = true ↔ a = c := by
      unfold memcmp_equal_entry
      rw [Bool.and_eq_true, beq_iff_eq, beq_iff_eq]
      constructor
      · rintro ⟨hl, hs⟩
        exact (memcmp_sign_full_eq a c hl).mp hs
      · rintro rfl
        exact ⟨rfl, memcmp_sign_self a _⟩
    have h2 : sv_equal_entry a c = true ↔ a = c := by
      unfold sv_equal_entry
      rw [beq_iff_eq]
    cases hm : memcmp_equal_entry a c <;> cases hb : sv_equal_entry a c <;> simp_all
  · intro s
    constructor
    · unfold sv_equal_entry
      rw [beq_iff_eq]
    · unfold memcmp_equal_entry
      rw [Bool.and_eq_true, beq_iff_eq, beq_iff_eq]
      exact ⟨rfl, memcmp_sign_self s _⟩

/-- Claim C4 (amended): for every alphabet whose size is not a multiple of
256 (in particular any size in [1, 255]) and every token length, each of the
three random-generation callables leaves every buffer byte at index at least
`token_length` unchanged, returns exactly `token_length` as the bytes
written, and writes only members of the alphabet to the first `token_length`
positions. -/
theorem random_generation_entries_spec (rand : Nat → Nat) (tl : Nat)
    (alphabet buffer : List Nat) (halpha : alphabet.length % 256 ≠ 0) :
    ∃ b1 b2 b3 : List Nat,
      rand_mod_uint8_entry rand tl alphabet buffer = some (b1, tl) ∧
      uniform_int_entry rand tl alphabet buffer = some (b2, tl) ∧
      sz_randomize_entry rand tl alphabet buffer = some (b3, tl) ∧
      ∀ b ∈ [b1, b2, b3],
        (∀ i, tl ≤ i → b.get? i = buffer.get? i) ∧
        (∀ i, i < tl → ∃ v, b.get? i = some v ∧ v ∈ alphabet) := by
  have h0 : alphabet.length ≠ 0 := by
    intro hz
    rw [hz] at halpha
    exact halpha (by decide)
  obtain ⟨b1, hb1, h1a, h1b⟩ := rand_mod_uint8_entry_spec rand tl alphabet buffer halpha
  obtain ⟨b2, hb2, h2a, h2b⟩ := randomize_fill_spec rand tl alphabet buffer h0
  refine ⟨b1, b2, b2, hb1, ?_, ?_, ?_⟩
  · unfold uniform_int_entry randomize_string
    rw [hb2]
    rfl
  · unfold sz_randomize_entry sz_randomize
    rw [hb2]
    rfl
  · intro b hb
    simp only [List.mem_cons, List.not_mem_nil, or_false] at hb
    rcases hb with rfl | rfl | rfl
    · exact ⟨h1a, h1b⟩
    · exact ⟨h2a, h2b⟩
    · exact ⟨h2a, h2b⟩

/-- Concrete instance of the amended claim C4 at alphabet [7], token length 1,
empty initial buffer. -/
theorem random_generation_entries_witness :
    ∃ b1 b2 b3 : List Nat,
      rand_mod_uint8_entry (fun _ => 0) 1 [7] [] = some (b1, 1) ∧
      uniform_int_entry (fun _ => 0) 1 [7] [] = some (b2, 1) ∧
      sz_randomize_entry (fun _ => 0) 1 [7] [] = some (b3, 1) ∧
      ∀ b ∈ [b1, b2, b3],
        (∀ i, 1 ≤ i → b.get? i = ([] : List Nat).get? i) ∧
        (∀ i, i < 1 → ∃ v, b.get? i = some v ∧ v ∈ [7]) :=
  random_generation_entries_spec (fun _ => 0) 1 [7] [] (by decide)

/-- Claim C4 counterexample: on the empty alphabet (size 0, a multiple of
256) with token length 1, all three callables hit undefined behaviour
(division by zero, or an impossible draw from an empty alphabet) instead of
returning 1 byte written, so the claim does not hold for every alphabet. -/
theorem random_generation_empty_alphabet :
    rand_mod_uint8_entry (fun _ => 0) 1 [] [0] = none ∧
    uniform_int_entry (fun _ => 0) 1 [] [0] = none ∧
    sz_randomize_entry (fun _ => 0) 1 [] [0] = none :=
  ⟨rfl, rfl, rfl⟩

/-- Claim C10: under the precondition 1 ≤ alphabet.size ≤ 255 the truncated
divisor equals the alphabet size, is non-zero, every index
`rand % divisor` is in bounds, and the `std::rand % uint8` callable runs
without undefined behaviour; the precondition is necessary because every
alphabet size that is a non-zero multiple of 256 truncates to divisor 0. -/
theorem rand_mod_uint8_precondition (alphabet : List Nat)
    (h1 : 1 ≤ alphabet.length) (h2 : alphabet.length ≤ 255) :
    max_alphabet_size alphabet.length = alphabet.length ∧
    max_alphabet_size alphabet.length ≠ 0 ∧
    (∀ r : Nat, r % max_alphabet_size alphabet.length < alphabet.length) ∧
    (∀ (rand : Nat → Nat) (tl : Nat) (buffer : List Nat),
      (rand_mod_uint8_entry rand tl alphabet buffer).isSome) ∧
    (∀ k : Nat, k ≠ 0 → max_alphabet_size (256 * k) = 0) := by
  have hml : max_alphabet_size alphabet.length = alphabet.length :=
    Nat.mod_eq_of_lt (by omega)
  have hm0 : max_alphabet_size alphabet.length ≠ 0 := by
    rw [hml]; omega
  refine ⟨hml, hm0, ?_, ?_, ?_⟩
  · intro r
    rw [hml]
    exact Nat.mod_lt _ (by omega)
  · intro rand tl buffer
    have halpha : alphabet.length % 256 ≠ 0 := hm0
    obtain ⟨b, hb, -, -⟩ := rand_mod_uint8_entry_spec rand tl alphabet buffer halpha
    rw [hb]
    rfl
  · intro k hk
    unfold max_alphabet_size
    omega

/-- Concrete instance of claim C10 at the one-byte alphabet [65]. -/
theorem rand_mod_uint8_witness :
    max_alphabet_size (List.length [65]) ≠ 0 ∧
    7 % max_alphabet_size (List.length [65]) < List.length [65] ∧
    (rand_mod_uint8_entry (fun _ => 3) 2 [65] []).isSome ∧
    max_alphabet_size (256 * 1) = 0 := by
  have h := rand_mod_uint8_precondition [65] (by decide) (by decide)
  exact ⟨h.2.1, h.2.2.1 7, h.2.2.2.1 (fun _ => 3) 2 [], h.2.2.2.2 1 (by decide)⟩

/-- Claim C5: on a corpus with zero elements `bench` returns immediately —
no runner is called, so no tracked function is invoked and the reported
invocation, byte, and mismatch totals are all zero — and
`bench_on_input_data` still visits every one of its 13 corpora. -/
theorem bench_empty_corpus (runner : category → List (List Nat) → runner_result)
    (strings : List (List Nat)) (h : strings.length = 0) :
    bench runner strings = [] ∧
    total_invocations (bench runner strings) = 0 ∧
    total_bytes (bench runner strings) = 0 ∧
    total_mismatches (bench runner strings) = 0 ∧
    (∀ d : dataset_t, (bench_on_input_data runner d).length = 3 + token_lengths.length) := by
  have hb : bench runner strings = [] := by
    unfold bench
    rw [if_pos h]
  refine ⟨hb, by rw [hb]; rfl, by rw [hb]; rfl, by rw [hb]; rfl, ?_⟩
  intro d
  simp [bench_on_input_data]
  omega

/-- Concrete instance of claim C5 on the empty corpus. -/
theorem bench_empty_corpus_witness :
    bench trivial_runner [] = [] ∧
    total_invocations (bench trivial_runner []) = 0 ∧
    total_bytes (bench trivial_runner []) = 0 ∧
    total_mismatches (bench trivial_runner []) = 0 ∧
    (∀ d : dataset_t, (bench_on_input_data trivial_runner d).length = 3 + token_lengths.length) :=
  bench_empty_corpus trivial_runner [] rfl

/-- Claim C6: on every non-empty corpus `bench` runs checksum, hashing,
equality, ordering, then the dereference micro-check for `std::string` and
for `sz::string`, in that order; and `bench_on_input_data` drives the
corpora in the order tokens, lines, whole text, then tokens of each length
in [1, 2, 3, 4, 5, 6, 7, 8, 16, 32]. -/
theorem bench_category_and_corpus_order
    (runner : category → List (List Nat) → runner_result)
    (strings : List (List Nat)) (h : strings.length ≠ 0) :
    (bench runner strings).map Prod.fst =
      [category.checksum, category.hashing, category.equality, category.ordering,
       category.deref_std_string, category.deref_sz_string] ∧
    (∀ d : dataset_t, (bench_on_input_data runner d).map Prod.fst =
      [corpus_label.tokens, corpus_label.lines, corpus_label.whole_text] ++
        token_lengths.map (fun L => corpus_label.tokens_of_length L)) ∧
    token_lengths = [1, 2, 3, 4, 5, 6, 7, 8, 16, 32] := by
  refine ⟨?_, ?_, rfl⟩
  · unfold bench
    rw [if_neg h]
    rfl
  · intro d
    rfl

/-- Concrete instance of claim C6 on a one-element corpus. -/
theorem bench_category_order_witness :
    (bench trivial_runner [[97]]).map Prod.fst =
      [category.checksum, category.hashing, category.equality, category.ordering,
       category.deref_std_string, category.deref_sz_string] :=
  (bench_category_and_corpus_order trivial_runner [[97]] (by decide)).1

/-- Claim C7: with fewer than two argv entries `main` runs the
synthetic-data mode, whose body performs no benchmarking, and every
invocation of `main` returns exit code 0. -/
theorem main_entry_modes (argc : Nat)
    (runner : category → List (List Nat) → runner_result) (d : dataset_t)
    (h : argc < 2) :
    (main_entry argc runner d).mode = run_mode.synthetic ∧
    (main_entry argc runner d).runs = [] ∧
    bench_on_synthetic_data = [] ∧
    (∀ argc2 : Nat, (main_entry argc2 runner d).exit_code = 0) := by
  refine ⟨?_, ?_, rfl, ?_⟩
  · unfold main_entry
    rw [if_pos h]
  · unfold main_entry
    rw [if_pos h]
    rfl
  · intro argc2
    unfold main_entry
    split <;> rfl

/-- Concrete instance of claim C7 with one argv entry. -/
theorem main_entry_modes_witness :
    (main_entry 1 trivial_runner empty_dataset).mode = run_mode.synthetic ∧
    (main_entry 1 trivial_runner empty_dataset).runs = [] ∧
    (main_entry 5 trivial_runner empty_dataset).exit_code = 0 := by
  have h := main_entry_modes 1 trivial_runner empty_dataset (by decide)
  exact ⟨h.1, h.2.1, h.2.2.2 5⟩

/-- Claim C8: as long as the byte sum does not overflow the 64-bit
accumulator — true of any physically possible string — the
`std::accumulate` checksum returns the sum of the byte values of its
input. -/
theorem accumulate_checksum_is_byte_sum (s : List Nat)
    (hbytes : ∀ b ∈ s, b < 256) (hsum : s.sum < 2 ^ 64) :
    accumulate_checksum s = s.sum := by
  unfold accumulate_checksum
  simpa using accumulate_aux s 0 hbytes (by omega)

/-- Concrete instance of claim C8: on "cat" the checksum is 99+97+116 = 312. -/
theorem accumulate_checksum_cat_witness : accumulate_checksum [99, 97, 116] = 312 := by
  have h := accumulate_checksum_is_byte_sum [99, 97, 116] (by decide) (by decide)
  simpa using h

/-- Claim C9: both in-file ordering entries return `sz_equal_k` on every
self-pair, and both are antisymmetric: whenever an entry orders (a, c) as
less it orders (c, a) as greater. -/
theorem ordering_self_and_antisymmetry :
    (∀ s : List Nat, sv_compare_entry s s = sz_equal_k ∧
      memcmp_order_entry s s = sz_equal_k) ∧
    (∀ a c : List Nat,
      (sv_compare_entry a c = sz_less_k → sv_compare_entry c a = sz_greater_k) ∧
      (memcmp_order_entry a c = sz_less_k → memcmp_order_entry c a = sz_greater_k)) :=
  ⟨fun s => ⟨sv_compare_self s, memcmp_order_self s⟩,
   fun a c => ⟨sv_compare_antisym a c, memcmp_order_antisym a c⟩⟩

/-- Concrete instance of claim C9's antisymmetry at the pair ("a", "b"). -/
theorem ordering_antisymmetry_witness :
    sv_compare_entry [98] [97] = sz_greater_k ∧
    memcmp_order_entry [98] [97] = sz_greater_k :=
  ⟨(ordering_self_and_antisymmetry.2 [97] [98]).1 (by decide),
   (ordering_self_and_antisymmetry.2 [97] [98]).2 (by decide)⟩
